import Mathlib

/-!
Verification of the xetra incremental ETL core (watermark resolution,
watermark update, report aggregation) against its natural-language
specification.

Shallow embedding conventions:
* Calendar dates are modelled as integers (day numbers, 1970-01-01 = day 0).
  The code stores dates as ISO `YYYY-MM-DD` strings; for that fixed-width
  format, lexicographic string comparison coincides with calendar order, so
  integer comparison is a faithful denotation.
* Times of day (`HH:MM` strings in the code) are modelled as integers
  (minutes), for the same lexicographic-order reason.
* Prices and volumes are modelled as rationals.  The code computes in
  IEEE floats; the well-formedness assumptions (positive prices, small
  exact-decimal inputs) keep the claims in the exact-arithmetic fragment.
* The S3 bucket is modelled as an association list of (key, format, value)
  objects together with a counter of `put_object` calls, so that "a write
  was performed" is observable.  `put_object` conses the new version in
  front; `readObj` returns the most recent version, which is observationally
  the same as S3's replace-on-put.
* Python exceptions (`WrongFormatException`, `WrongMetaFileException`,
  pandas `KeyError`) are modelled as one error type `XetraError`; fallible
  operations return `Except XetraError`.
-/

/-- Errors raised by the ETL core: `wrongFormat` models
`WrongFormatException` (unsupported write encoding), `wrongMetaFile` models
`WrongMetaFileException` (malformed watermark schema), `keyError` models the
pandas `KeyError` raised when a DataFrame column lookup fails. -/
inductive XetraError where
  | wrongFormat
  | wrongMetaFile
  | keyError
deriving DecidableEq, Repr

/-- The list of consecutive day numbers from `a` through `b` inclusive
(empty when `b < a`).  Models
`[start + timedelta(days=x) for x in range(0, (today - start).days + 1)]`. -/
def rangeDates (a b : ℤ) : List ℤ :=
  (List.range (b + 1 - a).toNat).map (fun i : ℕ => a + (i : ℤ))

/-- Minimum of a list of integers, 0 on the empty list.  Models python
`min(...)`, which is only ever applied to a non-empty set. -/
def minZ : List ℤ → ℤ
  | [] => 0
  | [x] => x
  | x :: y :: xs => min x (minZ (y :: xs))

/-- Maximum of a list of integers, `none` on the empty list. -/
def maxZ? : List ℤ → Option ℤ
  | [] => none
  | x :: xs =>
    some (match maxZ? xs with
          | none => x
          | some m => max x m)

/-- Minimum of a list of rationals, 0 on the empty list.  Models the pandas
groupby aggregation `min`, only ever applied to a non-empty group. -/
def minQ : List ℚ → ℚ
  | [] => 0
  | [x] => x
  | x :: y :: xs => min x (minQ (y :: xs))

/-- Maximum of a list of rationals, 0 on the empty list.  Models the pandas
groupby aggregation `max`, only ever applied to a non-empty group. -/
def maxQ : List ℚ → ℚ
  | [] => 0
  | [x] => x
  | x :: y :: xs => max x (maxQ (y :: xs))

/-- A stored S3 object: key, file format tag, and the tabular value.  The
format tag records which serialization `write_df_to_s3` chose. -/
structure S3Object (α : Type) where
  key : String
  fmt : String
  value : α
deriving DecidableEq, Repr

/-- Model of one S3 bucket: the list of stored objects (most recent version
first) and a counter of `put_object` calls, making "a write happened"
observable. -/
structure S3Bucket (α : Type) where
  objects : List (S3Object α)
  putCount : ℕ
deriving DecidableEq, Repr

/-- Models `S3BucketConnector.__put_object`: stores the value under the key
(later reads see the new version) and bumps the write counter. -/
def putObject {α : Type} (b : S3Bucket α) (key fmt : String) (v : α) : S3Bucket α :=
  ⟨⟨key, fmt, v⟩ :: b.objects, b.putCount + 1⟩

/-- Models `S3BucketConnector.read_csv_to_df` presence: `none` corresponds to
the boto3 `NoSuchKey` error, `some` to a successful parse of the object. -/
def readObj {α : Type} (b : S3Bucket α) (key : String) : Option α :=
  (b.objects.find? (fun o => o.key == key)).map (·.value)

/-- Models `S3BucketConnector.write_df_to_s3`.  An empty frame is not
written (the python method logs and returns `None`); format `csv` or
`parquet` serializes and stores the frame and returns `True`; any other
format raises `WrongFormatException` before touching storage.  The python
`DataFrame.empty` test is passed in as the predicate `isEmpty` of the
table type.  The bucket after the call is returned alongside the result so
that the no-write cases are observable. -/
def write_df_to_s3 {α : Type} (isEmpty : α → Bool) (data_frame : α)
    (key file_format : String) (b : S3Bucket α) :
    Except XetraError (Option Bool) × S3Bucket α :=
  if isEmpty data_frame then (.ok none, b)
  else if file_format = "csv" then (.ok (some true), putObject b key "csv" data_frame)
  else if file_format = "parquet" then (.ok (some true), putObject b key "parquet" data_frame)
  else (.error .wrongFormat, b)

/-- Name of the source-date column of the meta file
(`MetaProcessFormat.META_SOURCE_DATE_COL`). -/
def metaSourceDateCol : String := "source_date"

/-- Name of the processing-timestamp column of the meta file
(`MetaProcessFormat.META_PROCESS_COL`). -/
def metaProcessCol : String := "datetime_of_processing"

/-- One row of the meta (watermark) file: a processed source date and the
processing timestamp (seconds, idealizing the `%Y-%m-%d %H:%M:%S` string). -/
structure MetaRow where
  source_date : ℤ
  processed_at : ℤ
deriving DecidableEq, Repr

/-- The meta (watermark) file as parsed by pandas: the header (column
names) and the rows.  `rows` holds the values of the two expected columns
by name; the functions below consult `cols` before touching `rows`,
mirroring how pandas raises `KeyError` on a missing column. -/
structure MetaTable where
  cols : List String
  rows : List MetaRow
deriving DecidableEq, Repr

/-- A `MetaTable` is empty (in the `DataFrame.empty` sense) when it has no
rows. -/
def MetaTable.isEmpty (t : MetaTable) : Bool := t.rows.isEmpty

/-- The sentinel cutoff date `datetime(2200, 1, 1)` returned by
`return_date_list` when nothing is missing, as a day number
(1970-01-01 = day 0). -/
def sentinelDate : ℤ := 84006

/-- Models `MetaProcess.update_meta_file`.  Builds the new record batch
(one row per extracted date, all stamped `today_ts`), validates the column
multiset of any existing meta file (`collections.Counter` equality),
concatenates old and new rows, and writes the result back through
`write_df_to_s3` with format `csv`.  A malformed existing meta file raises
`WrongMetaFileException` before anything is written.  The python function
returns `True`; the updated bucket is returned alongside. -/
def update_meta_file (extract_date_list : List ℤ) (today_ts : ℤ)
    (meta_key : String) (b : S3Bucket MetaTable) :
    Except XetraError Bool × S3Bucket MetaTable :=
  let df_new : MetaTable :=
    ⟨[metaSourceDateCol, metaProcessCol],
     extract_date_list.map (fun d => ⟨d, today_ts⟩)⟩
  match readObj b meta_key with
  | some df_old =>
    if (df_old.cols : Multiset String) = (df_new.cols : Multiset String) then
      let df_all : MetaTable := ⟨df_old.cols, df_old.rows ++ df_new.rows⟩
      (.ok true, (write_df_to_s3 MetaTable.isEmpty df_all meta_key "csv" b).2)
    else
      (.error .wrongMetaFile, b)
  | none =>
    (.ok true, (write_df_to_s3 MetaTable.isEmpty df_new meta_key "csv" b).2)

/-- Models `MetaProcess.return_date_list`.  `first_date` and `today` are day
numbers (`today` models `datetime.today().date()`).  With no meta file
present, returns `first_date` and the full candidate range from
`first_date - 1` through `today`.  With a meta file, the candidate range
minus its first element is compared against the set of processed source
dates; if dates are missing, extraction restarts one day before the
earliest missing date, otherwise the sentinel cutoff and an empty list are
returned.  Looking up the `source_date` column of a meta file that lacks it
raises a pandas `KeyError`. -/
def return_date_list (first_date today : ℤ) (meta_key : String)
    (b : S3Bucket MetaTable) : Except XetraError (ℤ × List ℤ) :=
  let start := first_date - 1
  match readObj b meta_key with
  | some df_meta =>
    if metaSourceDateCol ∈ df_meta.cols then
      let dates := rangeDates start today
      let src_dates := df_meta.rows.map (·.source_date)
      let dates_missing := (dates.drop 1).filter (fun d => decide (d ∉ src_dates))
      if dates_missing.isEmpty then
        (.ok (sentinelDate, []))
      else
        let min_date := minZ dates_missing - 1
        (.ok (min_date + 1, dates.filter (fun d => decide (min_date ≤ d))))
    else
      .error .keyError
  | none =>
    .ok (first_date, rangeDates start today)

/-- Models the `meta_update_list` computed in `XetraETL.__init__`: the
extracted dates that are at least the resolved cutoff (`extract_date`);
these are the dates `XetraETL.load` appends to the meta file. -/
def meta_update_list (extract_date : ℤ) (extract_date_list : List ℤ) : List ℤ :=
  extract_date_list.filter (fun d => decide (extract_date ≤ d))

/-- One raw Xetra trade row after the projection
`data_frame.loc[:, src_columns]`, with the configured source columns
`['ISIN', 'Mnemonic', 'Date', 'Time', 'StartPrice', 'EndPrice', 'MinPrice',
'MaxPrice', 'TradedVolume']` as fields.  Every field is optional so that
`dropna` (which discards a row if any projected column is missing) can be
modelled faithfully. -/
structure SrcRow where
  ISIN : Option String
  Mnemonic : Option String
  Date : Option ℤ
  Time : Option ℤ
  StartPrice : Option ℚ
  EndPrice : Option ℚ
  MinPrice : Option ℚ
  MaxPrice : Option ℚ
  TradedVolume : Option ℚ
deriving DecidableEq, Repr

/-- A raw trade row with no missing values (the rows surviving `dropna`). -/
structure CleanRow where
  ISIN : String
  Mnemonic : String
  Date : ℤ
  Time : ℤ
  StartPrice : ℚ
  EndPrice : ℚ
  MinPrice : ℚ
  MaxPrice : ℚ
  TradedVolume : ℚ
deriving DecidableEq, Repr, Inhabited

/-- Models `data_frame.dropna()`: keeps exactly the rows in which every
projected source column is present. -/
def dropna (df : List SrcRow) : List CleanRow :=
  df.filterMap (fun r =>
    match r.ISIN, r.Mnemonic, r.Date, r.Time, r.StartPrice, r.EndPrice,
          r.MinPrice, r.MaxPrice, r.TradedVolume with
    | some i, some m, some d, some t, some sp, some ep, some mi, some ma, some tv =>
        some ⟨i, m, d, t, sp, ep, mi, ma, tv⟩
    | _, _, _, _, _, _, _, _, _ => none)

/-- The ordering used by `sort_values(by=['Time'])`. -/
def timeLe (a b : CleanRow) : Prop := a.Time ≤ b.Time

instance : DecidableRel timeLe :=
  fun a b => inferInstanceAs (Decidable (a.Time ≤ b.Time))

instance : IsTotal CleanRow timeLe := ⟨fun a b => le_total a.Time b.Time⟩

instance : IsTrans CleanRow timeLe := ⟨fun _ _ _ h1 h2 => le_trans h1 h2⟩

/-- Models `data_frame.sort_values(by=['Time'])`.  The pandas sort may pick
any permutation that is non-decreasing in `Time` (its default quicksort is
not stable); `insertionSort` is one such permutation, and the theorems only
rely on sortedness and permutation, which every pandas sort satisfies. -/
def sortByTime (l : List CleanRow) : List CleanRow := l.insertionSort timeLe

/-- Whether a row belongs to the `(ISIN, Date)` group. -/
def keyMatches (isin : String) (date : ℤ) (r : CleanRow) : Bool :=
  r.ISIN == isin && r.Date == date

/-- The rows of one `(ISIN, Date)` group, in frame order. -/
def groupRows (clean : List CleanRow) (isin : String) (date : ℤ) : List CleanRow :=
  clean.filter (keyMatches isin date)

/-- Models the broadcast opening price
`sort_values(by=['Time']).groupby(['ISIN', 'Date'])['StartPrice'].transform('first')`:
within the time-sorted frame, the `StartPrice` of the first row of the
group. -/
def openingPrice (clean : List CleanRow) (isin : String) (date : ℤ) : ℚ :=
  (((sortByTime clean).filter (keyMatches isin date)).headI).StartPrice

/-- Models the broadcast closing price (same computation with
`transform('last')`): the `StartPrice` of the last row of the group in the
time-sorted frame. -/
def closingPrice (clean : List CleanRow) (isin : String) (date : ℤ) : ℚ :=
  ((((sortByTime clean).filter (keyMatches isin date)).reverse).headI).StartPrice

/-- Lexicographic order on `(ISIN, Date)` group keys; pandas `groupby`
(with its default `sort=True`) emits the aggregated groups in this order. -/
def keyLe (a b : String × ℤ) : Prop := a.1 < b.1 ∨ (a.1 = b.1 ∧ a.2 ≤ b.2)

instance : DecidableRel keyLe :=
  fun a b => inferInstanceAs (Decidable (a.1 < b.1 ∨ (a.1 = b.1 ∧ a.2 ≤ b.2)))

instance : IsTotal (String × ℤ) keyLe := by
  constructor
  intro a b
  rcases lt_trichotomy a.1 b.1 with h | h | h
  · exact Or.inl (Or.inl h)
  · rcases le_total a.2 b.2 with h2 | h2
    · exact Or.inl (Or.inr ⟨h, h2⟩)
    · exact Or.inr (Or.inr ⟨h.symm, h2⟩)
  · exact Or.inr (Or.inl h)

instance : IsTrans (String × ℤ) keyLe := by
  constructor
  intro a b c hab hbc
  rcases hab with h1 | ⟨h1, h1'⟩
  · rcases hbc with h2 | ⟨h2, _⟩
    · exact Or.inl (lt_trans h1 h2)
    · exact Or.inl (h2 ▸ h1)
  · rcases hbc with h2 | ⟨h2, h2'⟩
    · exact Or.inl (h1 ▸ h2)
    · exact Or.inr ⟨h1.trans h2, le_trans h1' h2'⟩

/-- The distinct `(ISIN, Date)` keys of the cleaned frame, in the ascending
key order in which `groupby(['ISIN', 'Date'], as_index=False)` emits one
aggregated row per group. -/
def aggKeys (clean : List CleanRow) : List (String × ℤ) :=
  ((clean.map (fun r => (r.ISIN, r.Date))).dedup).insertionSort keyLe

/-- One row of the aggregated frame (after the `.agg` step), with the
configured target column names as fields. -/
structure AggRow where
  ISIN : String
  Date : ℤ
  opening_price_eur : ℚ
  closing_price_eur : ℚ
  minimum_price_eur : ℚ
  maximum_price_eur : ℚ
  daily_traded_volume : ℚ
deriving DecidableEq, Repr

/-- The aggregated row of one group: models the `.agg` dictionary
`{opening: min, closing: min, minimum: min, maximum: max, volume: sum}`
applied to the frame carrying the broadcast opening/closing columns. -/
def aggRowFor (clean : List CleanRow) (k : String × ℤ) : AggRow :=
  let grp := groupRows clean k.1 k.2
  { ISIN := k.1
    Date := k.2
    opening_price_eur := minQ (grp.map (fun r => openingPrice clean r.ISIN r.Date))
    closing_price_eur := minQ (grp.map (fun r => closingPrice clean r.ISIN r.Date))
    minimum_price_eur := minQ (grp.map (fun r => r.MinPrice))
    maximum_price_eur := maxQ (grp.map (fun r => r.MaxPrice))
    daily_traded_volume := (grp.map (fun r => r.TradedVolume)).sum }

/-- The aggregated frame: one row per distinct `(ISIN, Date)` key, in
ascending key order. -/
def aggregateGroups (clean : List CleanRow) : List AggRow :=
  (aggKeys clean).map (aggRowFor clean)

/-- One row of the final report.  `change_prev_closing` is the
`change_prev_closing_%` column; `none` models the NaN a shifted series
yields on the first date of an instrument. -/
structure ReportRow where
  ISIN : String
  Date : ℤ
  opening_price_eur : ℚ
  closing_price_eur : ℚ
  minimum_price_eur : ℚ
  maximum_price_eur : ℚ
  daily_traded_volume : ℚ
  change_prev_closing : Option ℚ
deriving DecidableEq, Repr

/-- Models the percent-change step
`sort_values(by=['Date']).groupby(['ISIN'])['opening_price_eur'].shift(1)`
followed by `(op - prev) / prev * 100`.  On the aggregated frame the
`(ISIN, Date)` keys are distinct and already in ascending key order, so the
row shifted onto `a` is exactly the row of the same instrument with the
greatest earlier date — the last such row in frame order. -/
def changeRowFor (agg : List AggRow) (a : AggRow) : ReportRow :=
  let prev := (agg.filter (fun p => p.ISIN == a.ISIN && decide (p.Date < a.Date))).getLast?
  { ISIN := a.ISIN
    Date := a.Date
    opening_price_eur := a.opening_price_eur
    closing_price_eur := a.closing_price_eur
    minimum_price_eur := a.minimum_price_eur
    maximum_price_eur := a.maximum_price_eur
    daily_traded_volume := a.daily_traded_volume
    change_prev_closing := prev.map (fun p =>
      (a.opening_price_eur - p.opening_price_eur) / p.opening_price_eur * 100) }

def withChange (agg : List AggRow) : List ReportRow :=
  agg.map (changeRowFor agg)

/-- Rounding to two decimal places on exact rationals, modelling
`DataFrame.round(decimals=2)`.  (Pandas rounds IEEE doubles half-to-even;
on values that are not exact half-cent ties — all the claims consider —
the two agree.) -/
def round2 (q : ℚ) : ℚ := (round (q * 100) : ℚ) / 100

/-- `round(decimals=2)` applied to every numeric column of a report row. -/
def roundRow (r : ReportRow) : ReportRow :=
  { ISIN := r.ISIN
    Date := r.Date
    opening_price_eur := round2 r.opening_price_eur
    closing_price_eur := round2 r.closing_price_eur
    minimum_price_eur := round2 r.minimum_price_eur
    maximum_price_eur := round2 r.maximum_price_eur
    daily_traded_volume := round2 r.daily_traded_volume
    change_prev_closing := r.change_prev_closing.map round2 }

/-- Models `XetraETL.transform_report1`: empty input is returned as is;
otherwise project/`dropna`, broadcast opening and closing prices, aggregate
per `(ISIN, Date)`, compute the percent change against the previous date of
the instrument, round every numeric column to 2 decimals, and keep only the
rows with `Date >= extract_date` (with a fresh contiguous index, which in
this list model is the list position). -/
def transform_report1 (extract_date : ℤ) (data_frame : List SrcRow) : List ReportRow :=
  if data_frame.isEmpty then []
  else
    let clean := dropna data_frame
    ((withChange (aggregateGroups clean)).map roundRow).filter
      (fun r => decide (extract_date ≤ r.Date))

/-- The chronologically first row of a group of raw rows (specification
side): the head of the group sorted by time of day. -/
def chronFirst (l : List CleanRow) : CleanRow := (sortByTime l).headI

/-- The chronologically last row of a group of raw rows (specification
side). -/
def chronLast (l : List CleanRow) : CleanRow := (sortByTime l).reverse.headI

/-- The immediately preceding date of the instrument in the aggregated set
(specification side): the greatest aggregated date of `isin` strictly
before `date`, if any. -/
def prevAggDate (clean : List CleanRow) (isin : String) (date : ℤ) : Option ℤ :=
  maxZ? (((aggKeys clean).filter
    (fun k => k.1 == isin && decide (k.2 < date))).map (fun k => k.2))

/-- Well-formedness of an input table: within every `(ISIN, Date)` group of
the surviving (`dropna`) rows the times of day are pairwise distinct (so
"chronologically first/last" is unambiguous — the code's unstable sort
makes ties arbitrary), and all start prices are positive (ruling out the
division-by-zero regime where float and rational semantics part ways). -/
def WellFormed (df : List SrcRow) : Prop :=
  (dropna df).Pairwise
    (fun a b => a.ISIN = b.ISIN → a.Date = b.Date → a.Time ≠ b.Time) ∧
  ∀ r ∈ dropna df, 0 < r.StartPrice

/-- The expected meta-file header. -/
def exMetaCols : List String := [metaSourceDateCol, metaProcessCol]

/-- Example watermark: dates 10, 11 and 13 processed (12 missing). -/
def exMetaTable : MetaTable := ⟨exMetaCols, [⟨10, 100⟩, ⟨11, 100⟩, ⟨13, 100⟩]⟩

/-- Example bucket holding `exMetaTable` under key `meta.csv`. -/
def exBucket : S3Bucket MetaTable := ⟨[⟨"meta.csv", "csv", exMetaTable⟩], 0⟩

/-- Example malformed watermark: `wrong_column` instead of `source_date`. -/
def exBadMetaTable : MetaTable := ⟨["wrong_column", metaProcessCol], [⟨10, 100⟩, ⟨11, 100⟩]⟩

/-- Example bucket holding the malformed watermark. -/
def exBadBucket : S3Bucket MetaTable := ⟨[⟨"meta.csv", "csv", exBadMetaTable⟩], 0⟩

/-- Example bucket with no objects at all. -/
def exEmptyBucket : S3Bucket MetaTable := ⟨[], 0⟩

/-- Example watermark with the single processed date 10. -/
def exCoverTable : MetaTable := ⟨exMetaCols, [⟨10, 100⟩]⟩

/-- Example bucket holding `exCoverTable` under key `meta.csv`. -/
def exCoverBucket : S3Bucket MetaTable := ⟨[⟨"meta.csv", "csv", exCoverTable⟩], 0⟩

instance {ε α : Type} [DecidableEq ε] [DecidableEq α] : DecidableEq (Except ε α) := fun x y =>
  match x, y with
  | .error a, .error b =>
    if h : a = b then .isTrue (h ▸ rfl) else .isFalse (fun he => h (Except.error.inj he))
  | .ok a, .ok b =>
    if h : a = b then .isTrue (h ▸ rfl) else .isFalse (fun he => h (Except.ok.inj he))
  | .error _, .ok _ => .isFalse (fun he => Except.noConfusion he)
  | .ok _, .error _ => .isFalse (fun he => Except.noConfusion he)

/-- Example raw table: instrument `X`, two dates with two minute rows each,
distinct times in each group, positive prices. -/
def exSrcRows : List SrcRow :=
  [⟨some "X", some "XD", some 1, some 9, some 10, some 11, some 9, some 12, some 100⟩,
   ⟨some "X", some "XD", some 1, some 10, some 12, some 11, some 8, some 13, some 50⟩,
   ⟨some "X", some "XD", some 2, some 9, some 20, some 21, some 19, some 22, some 70⟩,
   ⟨some "X", some "XD", some 2, some 10, some 24, some 21, some 18, some 25, some 30⟩]

/-- The report row for `(X, 2)` produced from `exSrcRows`. -/
def exReportRow : ReportRow := ⟨"X", 2, 20, 24, 18, 25, 100, some 100⟩

theorem mem_rangeDates {a b d : ℤ} : d ∈ rangeDates a b ↔ a ≤ d ∧ d ≤ b := by
  unfold rangeDates
  simp only [List.mem_map, List.mem_range]
  constructor
  · rintro ⟨i, hi, rfl⟩
    omega
  · rintro ⟨h1, h2⟩
    refine ⟨(d - a).toNat, by omega, by omega⟩

theorem rangeDates_eq_nil {a b : ℤ} (h : b < a) : rangeDates a b = [] := by
  unfold rangeDates
  have : (b + 1 - a).toNat = 0 := by omega
  simp [this]

theorem rangeDates_cons {a b : ℤ} (h : a ≤ b) :
    rangeDates a b = a :: rangeDates (a + 1) b := by
  unfold rangeDates
  have hn : (b + 1 - a).toNat = (b + 1 - (a + 1)).toNat + 1 := by omega
  rw [hn, List.range_succ_eq_map, List.map_cons, List.map_map]
  refine congrArg₂ _ (by omega) ?_
  apply List.map_congr_left
  intro i _
  simp [Nat.succ_eq_add_one]
  omega

theorem rangeDates_ne_nil {a b : ℤ} (h : a ≤ b) : rangeDates a b ≠ [] := by
  rw [rangeDates_cons h]
  exact List.cons_ne_nil _ _

theorem rangeDates_drop_one {a b : ℤ} :
    (rangeDates a b).drop 1 = rangeDates (a + 1) b := by
  rcases le_or_lt a b with h | h
  · rw [rangeDates_cons h, List.drop_one, List.tail_cons]
  · rw [rangeDates_eq_nil h, rangeDates_eq_nil (by omega)]
    rfl

theorem rangeDates_filter_ge (c : ℤ) :
    ∀ (a b : ℤ), a ≤ c →
      (rangeDates a b).filter (fun d => decide (c ≤ d)) = rangeDates c b := by
  intro a b hac
  obtain ⟨n, hn⟩ : ∃ n : ℕ, (c - a).toNat = n := ⟨_, rfl⟩
  induction n generalizing a with
  | zero =>
    have : a = c := by omega
    subst this
    rcases le_or_lt a b with h | h
    · have hall : ∀ d ∈ rangeDates a b, a ≤ d := fun d hd => (mem_rangeDates.mp hd).1
      rw [List.filter_eq_self.mpr]
      intro d hd
      simpa using hall d hd
    · simp [rangeDates_eq_nil h]
  | succ n ih =>
    have hlt : a < c := by omega
    rcases le_or_lt a b with h | h
    · rw [rangeDates_cons h, List.filter_cons]
      have : (decide (c ≤ a)) = false := by simp; omega
      rw [this]
      simp only [Bool.false_eq_true, if_false]
      exact ih (a + 1) (by omega) (by omega)
    · rw [rangeDates_eq_nil h, rangeDates_eq_nil (by omega)]
      rfl

theorem head?_rangeDates {a b : ℤ} (h : a ≤ b) : (rangeDates a b).head? = some a := by
  rw [rangeDates_cons h]
  rfl

theorem getLast?_rangeDates : ∀ (a b : ℤ), a ≤ b → (rangeDates a b).getLast? = some b := by
  intro a b hab
  obtain ⟨n, hn⟩ : ∃ n : ℕ, (b - a).toNat = n := ⟨_, rfl⟩
  induction n generalizing a with
  | zero =>
    have : a = b := by omega
    subst this
    rw [rangeDates_cons le_rfl, rangeDates_eq_nil (by omega)]
    rfl
  | succ n ih =>
    have hlt : a < b := by omega
    rw [rangeDates_cons (by omega), List.getLast?_cons]
    have htail := ih (a + 1) (by omega) (by omega)
    rw [htail]
    cases hcase : rangeDates (a + 1) b with
    | nil => rw [hcase] at htail; simp at htail
    | cons x xs => simp [hcase] at htail ⊢

theorem chain'_rangeDates : ∀ (a b : ℤ), List.Chain' (fun x y => y = x + 1) (rangeDates a b) := by
  intro a b
  rcases le_or_lt a b with hab | hab
  · obtain ⟨n, hn⟩ : ∃ n : ℕ, (b - a).toNat = n := ⟨_, rfl⟩
    induction n generalizing a with
    | zero =>
      have : a = b := by omega
      subst this
      rw [rangeDates_cons le_rfl, rangeDates_eq_nil (by omega)]
      simp
    | succ n ih =>
      have hlt : a < b := by omega
      rw [rangeDates_cons (by omega)]
      have htail := ih (a + 1) (by omega) (by omega)
      rcases hcase : rangeDates (a + 1) b with _ | ⟨x, xs⟩
      · simp
      · have hx : x = a + 1 := by
          have hh := head?_rangeDates (a := a + 1) (b := b) (by omega)
          rw [hcase] at hh
          simpa using hh
        rw [hcase] at htail
        exact List.Chain'.cons (by omega) htail
  · rw [rangeDates_eq_nil hab]
    simp

theorem minZ_mem : ∀ {l : List ℤ}, l ≠ [] → minZ l ∈ l := by
  intro l
  induction l with
  | nil => simp
  | cons x xs ih =>
    intro _
    cases xs with
    | nil => simp [minZ]
    | cons y ys =>
      rw [minZ]
      rcases min_cases x (minZ (y :: ys)) with ⟨h, _⟩ | ⟨h, _⟩
      · rw [h]; exact List.mem_cons_self _ _
      · rw [h]; exact List.mem_cons_of_mem _ (ih (by simp))

theorem minZ_le : ∀ {l : List ℤ} {x : ℤ}, x ∈ l → minZ l ≤ x := by
  intro l
  induction l with
  | nil => simp
  | cons a as ih =>
    intro x hx
    cases as with
    | nil => simp at hx; simp [minZ, hx]
    | cons y ys =>
      rw [minZ]
      rcases List.mem_cons.mp hx with rfl | hmem
      · exact min_le_left _ _
      · exact le_trans (min_le_right _ _) (ih hmem)

theorem maxZ?_eq_none_iff {l : List ℤ} : maxZ? l = none ↔ l = [] := by
  cases l <;> simp [maxZ?]

theorem maxZ?_mem : ∀ {l : List ℤ} {m : ℤ}, maxZ? l = some m → m ∈ l := by
  intro l
  induction l with
  | nil => simp [maxZ?]
  | cons x xs ih =>
    intro m hm
    rw [maxZ?, Option.some.injEq] at hm
    cases hx : maxZ? xs with
    | none =>
      rw [hx] at hm
      simp only [] at hm
      exact hm ▸ List.mem_cons_self _ _
    | some k =>
      rw [hx] at hm
      simp only [] at hm
      rcases max_cases x k with ⟨h, _⟩ | ⟨h, _⟩
      · rw [h] at hm; exact hm ▸ List.mem_cons_self _ _
      · rw [h] at hm; exact List.mem_cons_of_mem _ (ih (hm ▸ hx))

theorem maxZ?_eq_getLast? : ∀ {l : List ℤ}, l.Pairwise (· < ·) → maxZ? l = l.getLast? := by
  intro l
  induction l with
  | nil => simp [maxZ?]
  | cons x xs ih =>
    intro hp
    have hp' := (List.pairwise_cons.mp hp).2
    have hlt := (List.pairwise_cons.mp hp).1
    cases xs with
    | nil => simp [maxZ?]
    | cons y ys =>
      rw [maxZ?, ih hp']
      have hlast : (y :: ys).getLast? = some ((y :: ys).getLast (by simp)) :=
        List.getLast?_eq_getLast _ _
      rw [hlast]
      have hmem : (y :: ys).getLast (by simp) ∈ y :: ys := List.getLast_mem _
      have : x < (y :: ys).getLast (by simp) := hlt _ hmem
      rw [List.getLast?_cons_cons, hlast]
      simp
      omega

theorem minQ_mem : ∀ {l : List ℚ}, l ≠ [] → minQ l ∈ l := by
  intro l
  induction l with
  | nil => simp
  | cons x xs ih =>
    intro _
    cases xs with
    | nil => simp [minQ]
    | cons y ys =>
      rw [minQ]
      rcases min_cases x (minQ (y :: ys)) with ⟨h, _⟩ | ⟨h, _⟩
      · rw [h]; exact List.mem_cons_self _ _
      · rw [h]; exact List.mem_cons_of_mem _ (ih (by simp))

theorem minQ_const {l : List ℚ} {c : ℚ} (hne : l ≠ []) (hall : ∀ x ∈ l, x = c) :
    minQ l = c :=
  hall _ (minQ_mem hne)

theorem sum_const_list {l : List ℚ} {c : ℚ} (hall : ∀ x ∈ l, x = c) :
    l.sum = l.length * c := by
  induction l with
  | nil => simp
  | cons x xs ih =>
    simp only [List.sum_cons, List.length_cons]
    rw [hall x (by simp), ih (fun y hy => hall y (by simp [hy]))]
    push_cast
    ring

theorem readObj_putObject_self {α : Type} (b : S3Bucket α) (k f : String) (v : α) :
    readObj (putObject b k f v) k = some v := by
  unfold readObj putObject
  rw [List.find?_cons_of_pos _ (by simp)]
  rfl

theorem pairwise_lt_rangeDates (a b : ℤ) : (rangeDates a b).Pairwise (· < ·) := by
  unfold rangeDates
  rw [List.pairwise_map]
  exact (List.pairwise_lt_range _).imp (fun h => by omega)

/-- Any non-empty date list returned by `return_date_list` is the
consecutive range from `cutoff - 1` through `today`. -/
theorem return_date_list_ok_shape {first_date today cutoff : ℤ} {meta_key : String}
    {b : S3Bucket MetaTable} {dates : List ℤ}
    (hres : return_date_list first_date today meta_key b = .ok (cutoff, dates))
    (hne : dates ≠ []) :
    dates = rangeDates (cutoff - 1) today ∧ cutoff - 1 ≤ today := by
  simp only [return_date_list] at hres
  split at hres
  · split at hres
    · split at hres
      · rename_i hempty
        simp only [Except.ok.injEq, Prod.mk.injEq] at hres
        exact absurd hres.2.symm hne
      · rename_i df hread hcol hmiss
        simp only [Except.ok.injEq, Prod.mk.injEq] at hres
        obtain ⟨hcut, hdates⟩ := hres
        set dm := ((rangeDates (first_date - 1) today).drop 1).filter
          (fun d => decide (d ∉ df.rows.map (fun r => r.source_date))) with hdm
        have hdmne : dm ≠ [] := by
          intro hdmnil
          rw [hdmnil] at hmiss
          simp at hmiss
        have hmem : minZ dm ∈ dm := minZ_mem hdmne
        have hmem2 : minZ dm ∈ (rangeDates (first_date - 1) today).drop 1 :=
          (List.mem_filter.mp hmem).1
        rw [rangeDates_drop_one] at hmem2
        have hbound := mem_rangeDates.mp hmem2
        have hfilter := rangeDates_filter_ge (minZ dm - 1) (first_date - 1) today (by omega)
        constructor
        · rw [← hdates, hfilter]
          have : cutoff - 1 = minZ dm - 1 := by omega
          rw [this]
        · omega
    · simp at hres
  · rename_i hread
    simp only [Except.ok.injEq, Prod.mk.injEq] at hres
    obtain ⟨hcut, hdates⟩ := hres
    have hne' : rangeDates (first_date - 1) today ≠ [] := hdates ▸ hne
    have hle : first_date - 1 ≤ today := by
      by_contra hlt
      exact hne' (rangeDates_eq_nil (by omega))
    constructor
    · rw [← hdates, ← hcut]
    · omega

/-- C3: with no watermark object (the storage read reports not-found),
`return_date_list` returns `cutoff_date = first_date` together with every
consecutive calendar date from `first_date - 1` through `today`
inclusive. -/
theorem return_date_list_no_meta (first_date today : ℤ) (meta_key : String)
    (b : S3Bucket MetaTable) (hnone : readObj b meta_key = none) :
    return_date_list first_date today meta_key b
      = .ok (first_date, rangeDates (first_date - 1) today) ∧
    (∀ d ∈ rangeDates (first_date - 1) today, first_date - 1 ≤ d ∧ d ≤ today) ∧
    List.Chain' (fun x y => y = x + 1) (rangeDates (first_date - 1) today) ∧
    (first_date - 1 ≤ today →
      (rangeDates (first_date - 1) today).head? = some (first_date - 1) ∧
      (rangeDates (first_date - 1) today).getLast? = some today) := by
  refine ⟨?_, fun d hd => mem_rangeDates.mp hd, chain'_rangeDates _ _,
    fun h => ⟨head?_rangeDates h, getLast?_rangeDates _ _ h⟩⟩
  simp only [return_date_list, hnone]

/-- Witness for C3: first-ever run with `first_date = 5`, `today = 8`. -/
theorem return_date_list_no_meta_witness :
    readObj exEmptyBucket "meta.csv" = none ∧
    (return_date_list 5 8 "meta.csv" exEmptyBucket
        = .ok (5, rangeDates (5 - 1) 8) ∧
      (∀ d ∈ rangeDates (5 - 1) 8, 5 - 1 ≤ d ∧ d ≤ 8) ∧
      List.Chain' (fun x y => y = x + 1) (rangeDates (5 - 1) 8) ∧
      ((5 : ℤ) - 1 ≤ 8 →
        (rangeDates (5 - 1) 8).head? = some (5 - 1) ∧
        (rangeDates (5 - 1) 8).getLast? = some 8)) :=
  ⟨by decide, return_date_list_no_meta 5 8 "meta.csv" exEmptyBucket (by decide)⟩

/-- C2: when the watermark is missing exactly one date `M` of the
candidate range (the anchor day excluded), `return_date_list` returns
`cutoff_date = M` and every consecutive calendar date from `M - 1` through
`today` inclusive. -/
theorem return_date_list_single_missing (first_date today M : ℤ) (meta_key : String)
    (b : S3Bucket MetaTable) (df : MetaTable)
    (hread : readObj b meta_key = some df)
    (hcol : metaSourceDateCol ∈ df.cols)
    (hmiss : ((rangeDates (first_date - 1) today).drop 1).filter
        (fun d => decide (d ∉ df.rows.map (fun r => r.source_date))) = [M]) :
    return_date_list first_date today meta_key b = .ok (M, rangeDates (M - 1) today) := by
  have hMmem : M ∈ ((rangeDates (first_date - 1) today).drop 1).filter
      (fun d => decide (d ∉ df.rows.map (fun r => r.source_date))) := by
    rw [hmiss]; exact List.mem_cons_self _ _
  have hMrange : M ∈ (rangeDates (first_date - 1) today).drop 1 :=
    (List.mem_filter.mp hMmem).1
  rw [rangeDates_drop_one] at hMrange
  have hMbound := mem_rangeDates.mp hMrange
  simp only [return_date_list, hread]
  rw [if_pos hcol, hmiss]
  have hone : ([M].isEmpty = true) = False := by simp
  simp only [List.isEmpty_cons, Bool.false_eq_true, if_false]
  have hminZ : minZ [M] = M := rfl
  rw [hminZ, rangeDates_filter_ge (M - 1) (first_date - 1) today (by omega)]
  have : M - 1 + 1 = M := by omega
  rw [this]

/-- Witness for C2: watermark `exMetaTable` has processed 10, 11 and 13;
with `first_date = 10` and `today = 13` only `M = 12` is missing. -/
theorem return_date_list_single_missing_witness :
    readObj exBucket "meta.csv" = some exMetaTable ∧
    metaSourceDateCol ∈ exMetaTable.cols ∧
    ((rangeDates (10 - 1) 13).drop 1).filter
        (fun d => decide (d ∉ exMetaTable.rows.map (fun r => r.source_date))) = [12] ∧
    return_date_list 10 13 "meta.csv" exBucket = .ok (12, rangeDates (12 - 1) 13) :=
  ⟨by decide, by decide, by decide,
    return_date_list_single_missing 10 13 12 "meta.csv" exBucket exMetaTable
      (by decide) (by decide) (by decide)⟩

/-- C9: whenever `return_date_list` succeeds with a non-empty date list,
that list is strictly ascending with consecutive calendar dates, its first
element is `cutoff_date - 1` (the anchor day), and its last element is
`today`. -/
theorem return_date_list_consecutive (first_date today cutoff : ℤ) (meta_key : String)
    (b : S3Bucket MetaTable) (dates : List ℤ)
    (hres : return_date_list first_date today meta_key b = .ok (cutoff, dates))
    (hne : dates ≠ []) :
    dates.Pairwise (· < ·) ∧
    List.Chain' (fun x y => y = x + 1) dates ∧
    dates.head? = some (cutoff - 1) ∧
    dates.getLast? = some today := by
  obtain ⟨hshape, hle⟩ := return_date_list_ok_shape hres hne
  subst hshape
  exact ⟨pairwise_lt_rangeDates _ _, chain'_rangeDates _ _,
    head?_rangeDates hle, getLast?_rangeDates _ _ hle⟩

/-- Witness for C9 at the concrete resolver run of the C2 witness. -/
theorem return_date_list_consecutive_witness :
    return_date_list 10 13 "meta.csv" exBucket = .ok (12, rangeDates (12 - 1) 13) ∧
    rangeDates (12 - 1) 13 ≠ [] ∧
    ((rangeDates (12 - 1) 13).Pairwise (· < ·) ∧
      List.Chain' (fun x y => y = x + 1) (rangeDates (12 - 1) 13) ∧
      (rangeDates (12 - 1) 13).head? = some (12 - 1) ∧
      (rangeDates (12 - 1) 13).getLast? = some 13) :=
  ⟨by decide, by decide,
    return_date_list_consecutive 10 13 12 "meta.csv" exBucket
      (rangeDates (12 - 1) 13) (by decide) (by decide)⟩

/-- C10: the orchestrator's `meta_update_list` keeps only the extracted
dates that are at least the resolved cutoff, so the anchor day (the head of
the extraction window, one day before the cutoff) is never recorded as
processed. -/
theorem meta_update_list_ge_cutoff (first_date today cutoff : ℤ) (meta_key : String)
    (b : S3Bucket MetaTable) (dates : List ℤ)
    (hres : return_date_list first_date today meta_key b = .ok (cutoff, dates)) :
    (∀ d ∈ meta_update_list cutoff dates, cutoff ≤ d) ∧
    (dates ≠ [] → dates.headI = cutoff - 1 ∧
      dates.headI ∉ meta_update_list cutoff dates) := by
  constructor
  · intro d hd
    have := (List.mem_filter.mp hd).2
    simpa using this
  · intro hne
    obtain ⟨hshape, hle⟩ := return_date_list_ok_shape hres hne
    have hhead : dates.head? = some (cutoff - 1) := by
      rw [hshape]; exact head?_rangeDates hle
    have hheadI : dates.headI = cutoff - 1 := by
      cases dates with
    | nil => exact absurd rfl hne
    | cons x xs => simpa using hhead
    refine ⟨hheadI, ?_⟩
    intro hmem
    have := (List.mem_filter.mp hmem).2
    rw [hheadI] at this
    simp at this

/-- Witness for C10 at the concrete resolver run of the C2 witness. -/
theorem meta_update_list_ge_cutoff_witness :
    return_date_list 10 13 "meta.csv" exBucket = .ok (12, rangeDates (12 - 1) 13) ∧
    ((∀ d ∈ meta_update_list 12 (rangeDates (12 - 1) 13), 12 ≤ d) ∧
      (rangeDates (12 - 1) 13 ≠ [] →
        (rangeDates (12 - 1) 13).headI = 12 - 1 ∧
        (rangeDates (12 - 1) 13).headI ∉ meta_update_list 12 (rangeDates (12 - 1) 13))) :=
  ⟨by decide,
    meta_update_list_ge_cutoff 10 13 12 "meta.csv" exBucket
      (rangeDates (12 - 1) 13) (by decide)⟩

/-- C4: after `update_meta_file` has appended non-empty `newDates` to a
schema-valid watermark, a `return_date_list` whose requested range
`first_date .. today` is fully covered by the updated watermark returns the
sentinel far-future cutoff and an empty date list: processed dates are
never re-extracted. -/
theorem update_then_resolve_no_reextraction (newDates : List ℤ) (ts first_date today : ℤ)
    (meta_key : String) (b : S3Bucket MetaTable) (df_old : MetaTable)
    (hread : readObj b meta_key = some df_old)
    (hschema : (df_old.cols : Multiset String)
      = (↑[metaSourceDateCol, metaProcessCol] : Multiset String))
    (hne : newDates ≠ [])
    (hfirst : ∀ d ∈ newDates, first_date ≤ d)
    (hcover : ∀ d ∈ rangeDates first_date today,
      d ∈ (df_old.rows ++ newDates.map (fun x => MetaRow.mk x ts)).map
        (fun r => r.source_date)) :
    (update_meta_file newDates ts meta_key b).1 = .ok true ∧
    return_date_list first_date today meta_key (update_meta_file newDates ts meta_key b).2
      = .ok (sentinelDate, []) := by
  have hupd : update_meta_file newDates ts meta_key b
      = (.ok true,
         putObject b meta_key "csv"
           ⟨df_old.cols, df_old.rows ++ newDates.map (fun d => ⟨d, ts⟩)⟩) := by
    simp only [update_meta_file, hread]
    rw [if_pos hschema]
    have hempty : (⟨df_old.cols, df_old.rows ++ newDates.map (fun d => ⟨d, ts⟩)⟩
        : MetaTable).isEmpty = false := by
      unfold MetaTable.isEmpty
      simp [hne]
    unfold write_df_to_s3
    rw [hempty]
    simp
  rw [hupd]
  refine ⟨rfl, ?_⟩
  simp only [return_date_list, readObj_putObject_self]
  have hcol : metaSourceDateCol
      ∈ (⟨df_old.cols, df_old.rows ++ newDates.map (fun d => ⟨d, ts⟩)⟩ : MetaTable).cols := by
    have : metaSourceDateCol ∈ (df_old.cols : Multiset String) := by
      rw [hschema]
      simp
    simpa using this
  rw [if_pos hcol]
  have hnil : ((rangeDates (first_date - 1) today).drop 1).filter
      (fun d => decide
        (d ∉ (df_old.rows ++ newDates.map (fun d => MetaRow.mk d ts)).map
          (fun r => r.source_date))) = [] := by
    rw [List.filter_eq_nil_iff]
    intro d hd
    rw [rangeDates_drop_one] at hd
    have hb := mem_rangeDates.mp hd
    have hmem := hcover d (mem_rangeDates.mpr (by omega))
    simp only [decide_eq_true_eq]
    exact fun hcon => hcon hmem
  rw [hnil]
  rfl

/-- Witness for C4: watermark with processed date 10, updating with
`newDates = [11, 12]`, then resolving `first_date = 10`, `today = 12`. -/
theorem update_then_resolve_no_reextraction_witness :
    readObj exCoverBucket "meta.csv" = some exCoverTable ∧
    (exCoverTable.cols : Multiset String)
      = (↑[metaSourceDateCol, metaProcessCol] : Multiset String) ∧
    ([11, 12] : List ℤ) ≠ [] ∧
    (∀ d ∈ ([11, 12] : List ℤ), (10 : ℤ) ≤ d) ∧
    (∀ d ∈ rangeDates 10 12,
      d ∈ (exCoverTable.rows ++ ([11, 12] : List ℤ).map
        (fun x => MetaRow.mk x 200)).map (fun r => r.source_date)) ∧
    ((update_meta_file [11, 12] 200 "meta.csv" exCoverBucket).1 = .ok true ∧
     return_date_list 10 12 "meta.csv"
        (update_meta_file [11, 12] 200 "meta.csv" exCoverBucket).2
       = .ok (sentinelDate, [])) :=
  ⟨by decide, by decide, by decide, by decide, by decide,
    update_then_resolve_no_reextraction [11, 12] 200 10 12 "meta.csv"
      exCoverBucket exCoverTable (by decide) (by decide) (by decide)
      (by decide) (by decide)⟩

/-- C5 (amended): consulting a watermark whose column multiset differs from
the expected schema makes `update_meta_file` fail with the
malformed-watermark error and write nothing, while `return_date_list`
fails only through the pandas column lookup: when the `source_date` column
is absent it raises a `KeyError`, not the malformed-watermark error. -/
theorem meta_wrong_schema_behaviour (newDates : List ℤ) (ts first_date today : ℤ)
    (meta_key : String) (b : S3Bucket MetaTable) (df_old : MetaTable)
    (hread : readObj b meta_key = some df_old)
    (hbad : ¬ ((df_old.cols : Multiset String)
      = (↑[metaSourceDateCol, metaProcessCol] : Multiset String))) :
    update_meta_file newDates ts meta_key b = (.error .wrongMetaFile, b) ∧
    (metaSourceDateCol ∉ df_old.cols →
      return_date_list first_date today meta_key b = .error .keyError) := by
  constructor
  · simp only [update_meta_file, hread]
    rw [if_neg hbad]
  · intro hnotin
    simp only [return_date_list, hread]
    rw [if_neg hnotin]

/-- Counterexample to C5 as stated: on the watermark with `wrong_column`
instead of `source_date`, the resolver fails with the column-lookup
`KeyError`, not with the malformed-watermark error the claim requires. -/
theorem meta_wrong_schema_counterexample :
    return_date_list 10 12 "meta.csv" exBadBucket = .error .keyError ∧
    return_date_list 10 12 "meta.csv" exBadBucket ≠ .error .wrongMetaFile ∧
    update_meta_file [12] 100 "meta.csv" exBadBucket = (.error .wrongMetaFile, exBadBucket) :=
  ⟨by decide, by decide, by decide⟩

/-- Witness for the amended C5 at the `wrong_column` watermark. -/
theorem meta_wrong_schema_behaviour_witness :
    readObj exBadBucket "meta.csv" = some exBadMetaTable ∧
    ¬ ((exBadMetaTable.cols : Multiset String)
      = (↑[metaSourceDateCol, metaProcessCol] : Multiset String)) ∧
    (update_meta_file [12] 100 "meta.csv" exBadBucket = (.error .wrongMetaFile, exBadBucket) ∧
     (metaSourceDateCol ∉ exBadMetaTable.cols →
       return_date_list 10 12 "meta.csv" exBadBucket = .error .keyError)) :=
  ⟨by decide, by decide,
    meta_wrong_schema_behaviour [12] 100 10 12 "meta.csv" exBadBucket exBadMetaTable
      (by decide) (by decide)⟩

/-- C6 (amended): `update_meta_file` with an empty date list returns true
and never changes the recorded watermark content; nothing is written when
no watermark exists (or the existing one has no rows), but an existing
non-empty watermark is rewritten — one `put_object` call — with its rows
unchanged. -/
theorem update_meta_file_empty_list (ts : ℤ) (meta_key : String) (b : S3Bucket MetaTable)
    (hok : (readObj b meta_key).elim True
      (fun t => (t.cols : Multiset String)
        = (↑[metaSourceDateCol, metaProcessCol] : Multiset String))) :
    (update_meta_file [] ts meta_key b).1 = .ok true ∧
    (match readObj b meta_key with
     | none => (update_meta_file [] ts meta_key b).2 = b
     | some t =>
        readObj (update_meta_file [] ts meta_key b).2 meta_key = some t ∧
        (update_meta_file [] ts meta_key b).2.putCount
          = b.putCount + (if t.rows.isEmpty then 0 else 1)) := by
  cases hread : readObj b meta_key with
  | none =>
    have hupd : update_meta_file [] ts meta_key b = (.ok true, b) := by
      simp only [update_meta_file, hread]
      unfold write_df_to_s3
      simp [MetaTable.isEmpty]
    rw [hupd]
    exact ⟨rfl, rfl⟩
  | some t =>
    rw [hread] at hok
    simp only [Option.elim] at hok
    have hupd : update_meta_file [] ts meta_key b
        = (.ok true, (write_df_to_s3 MetaTable.isEmpty t meta_key "csv" b).2) := by
      simp only [update_meta_file, hread]
      rw [if_pos hok]
      simp
    rw [hupd]
    refine ⟨rfl, ?_⟩
    cases hrows : t.rows with
    | nil =>
      have hwr : (write_df_to_s3 MetaTable.isEmpty t meta_key "csv" b).2 = b := by
        unfold write_df_to_s3
        have : t.isEmpty = true := by unfold MetaTable.isEmpty; rw [hrows]; rfl
        rw [this]
        simp
      rw [hwr]
      exact ⟨hread, by rw [hrows]; simp⟩
    | cons x xs =>
      have hwr : (write_df_to_s3 MetaTable.isEmpty t meta_key "csv" b).2
          = putObject b meta_key "csv" t := by
        unfold write_df_to_s3
        have : t.isEmpty = false := by unfold MetaTable.isEmpty; rw [hrows]; rfl
        rw [this]
        simp
      rw [hwr]
      refine ⟨readObj_putObject_self b meta_key "csv" t, ?_⟩
      unfold putObject
      have : t.rows.isEmpty = false := by rw [hrows]; rfl
      rw [this]
      rfl

/-- Counterexample to C6 as stated: with an existing non-empty watermark,
`update_meta_file []` still performs a storage write (the `put_object`
counter changes), so "performs no write to storage" fails. -/
theorem update_meta_file_empty_list_counterexample :
    (update_meta_file [] 100 "meta.csv" exBucket).1 = .ok true ∧
    (update_meta_file [] 100 "meta.csv" exBucket).2.putCount ≠ exBucket.putCount :=
  ⟨by decide, by decide⟩

/-- Witness for the amended C6 at the non-empty watermark `exBucket`. -/
theorem update_meta_file_empty_list_witness :
    ((readObj exBucket "meta.csv").elim True
      (fun t => (t.cols : Multiset String)
        = (↑[metaSourceDateCol, metaProcessCol] : Multiset String))) ∧
    ((update_meta_file [] 100 "meta.csv" exBucket).1 = .ok true ∧
     (match readObj exBucket "meta.csv" with
      | none => (update_meta_file [] 100 "meta.csv" exBucket).2 = exBucket
      | some t =>
          readObj (update_meta_file [] 100 "meta.csv" exBucket).2 "meta.csv" = some t ∧
          (update_meta_file [] 100 "meta.csv" exBucket).2.putCount
            = exBucket.putCount + (if t.rows.isEmpty then 0 else 1))) :=
  ⟨by
    show (exMetaTable.cols : Multiset String)
      = (↑[metaSourceDateCol, metaProcessCol] : Multiset String)
    decide,
   update_meta_file_empty_list 100 "meta.csv" exBucket
     (by
       show (exMetaTable.cols : Multiset String)
         = (↑[metaSourceDateCol, metaProcessCol] : Multiset String)
       decide)⟩

/-- C8: `write_df_to_s3` on an empty frame returns the no-write result
without storing any object, and on a non-empty frame with a format other
than `csv`/`parquet` fails with `WrongFormatException` without storing
any object. -/
theorem write_df_to_s3_empty_or_unsupported {α : Type} (isEmpty : α → Bool) (df : α)
    (key fmt : String) (b : S3Bucket α) :
    (isEmpty df = true → write_df_to_s3 isEmpty df key fmt b = (.ok none, b)) ∧
    (isEmpty df = false → fmt ≠ "csv" → fmt ≠ "parquet" →
      write_df_to_s3 isEmpty df key fmt b = (.error .wrongFormat, b)) := by
  constructor
  · intro h
    unfold write_df_to_s3
    rw [h]
    simp
  · intro h h1 h2
    unfold write_df_to_s3
    rw [h]
    simp [h1, h2]

/-- Witness for C8: an empty meta table with format `json`, and a non-empty
one with format `json`. -/
theorem write_df_to_s3_empty_or_unsupported_witness :
    (⟨exMetaCols, []⟩ : MetaTable).isEmpty = true ∧
    write_df_to_s3 MetaTable.isEmpty (⟨exMetaCols, []⟩ : MetaTable)
        "report.json" "json" exEmptyBucket = (.ok none, exEmptyBucket) ∧
    exMetaTable.isEmpty = false ∧
    write_df_to_s3 MetaTable.isEmpty exMetaTable "report.json" "json" exEmptyBucket
      = (.error .wrongFormat, exEmptyBucket) :=
  ⟨by decide,
   (write_df_to_s3_empty_or_unsupported MetaTable.isEmpty ⟨exMetaCols, []⟩
     "report.json" "json" exEmptyBucket).1 (by decide),
   by decide,
   (write_df_to_s3_empty_or_unsupported MetaTable.isEmpty exMetaTable
     "report.json" "json" exEmptyBucket).2 (by decide) (by decide) (by decide)⟩

theorem filter_map_comm {α β : Type} (f : α → β) (p : β → Bool) (l : List α) :
    (l.map f).filter p = (l.filter (fun x => p (f x))).map f := by
  induction l with
  | nil => rfl
  | cons a t ih =>
    simp only [List.map_cons, List.filter_cons]
    cases p (f a) <;> simp [ih]

theorem getLast?_map_comm {α β : Type} (f : α → β) (l : List α) :
    (l.map f).getLast? = (l.getLast?).map f := by
  induction l with
  | nil => rfl
  | cons a t ih =>
    cases t with
    | nil => rfl
    | cons b t' =>
      simp only [List.map_cons, List.getLast?_cons_cons]
      simpa using ih

theorem mem_of_getLast?' {α : Type} {l : List α} {a : α} (h : l.getLast? = some a) :
    a ∈ l := by
  induction l with
  | nil => simp at h
  | cons x t ih =>
    cases t with
    | nil => simp at h; simp [h]
    | cons b t' =>
      rw [List.getLast?_cons_cons] at h
      exact List.mem_cons_of_mem _ (ih h)

theorem sortByTime_perm (l : List CleanRow) : List.Perm (sortByTime l) l :=
  List.perm_insertionSort timeLe l

theorem sortByTime_pairwise (l : List CleanRow) : (sortByTime l).Pairwise timeLe :=
  List.sorted_insertionSort timeLe l

theorem aggRowFor_ISIN (clean : List CleanRow) (k : String × ℤ) :
    (aggRowFor clean k).ISIN = k.1 := rfl

theorem aggRowFor_Date (clean : List CleanRow) (k : String × ℤ) :
    (aggRowFor clean k).Date = k.2 := rfl

theorem mem_groupRows {clean : List CleanRow} {i : String} {d : ℤ} {r : CleanRow} :
    r ∈ groupRows clean i d ↔ r ∈ clean ∧ r.ISIN = i ∧ r.Date = d := by
  simp [groupRows, keyMatches, List.mem_filter]

theorem mem_aggKeys {clean : List CleanRow} {k : String × ℤ} :
    k ∈ aggKeys clean ↔ ∃ r ∈ clean, (r.ISIN, r.Date) = k := by
  unfold aggKeys
  rw [(List.perm_insertionSort keyLe _).mem_iff, List.mem_dedup, List.mem_map]

theorem aggKeys_nodup (clean : List CleanRow) : (aggKeys clean).Nodup :=
  (List.perm_insertionSort keyLe _).symm.nodup (List.nodup_dedup _)

theorem aggKeys_pairwise (clean : List CleanRow) : (aggKeys clean).Pairwise keyLe :=
  List.sorted_insertionSort keyLe _

theorem groupRows_ne_nil {clean : List CleanRow} {k : String × ℤ}
    (hk : k ∈ aggKeys clean) : groupRows clean k.1 k.2 ≠ [] := by
  obtain ⟨r, hr, hkey⟩ := mem_aggKeys.mp hk
  intro hnil
  have : r ∈ groupRows clean k.1 k.2 := by
    rw [mem_groupRows]
    exact ⟨hr, by rw [← hkey], by rw [← hkey]⟩
  rw [hnil] at this
  simp at this

/-- Pairwise-distinct times inside a group determine a row by its time. -/
theorem group_time_inj {clean : List CleanRow}
    (hwf : clean.Pairwise
      (fun a b => a.ISIN = b.ISIN → a.Date = b.Date → a.Time ≠ b.Time))
    {i : String} {d : ℤ} {x y : CleanRow}
    (hx : x ∈ groupRows clean i d) (hy : y ∈ groupRows clean i d)
    (ht : x.Time = y.Time) : x = y := by
  by_contra hxy
  have hsymm : Symmetric
      (fun a b : CleanRow => a.ISIN = b.ISIN → a.Date = b.Date → a.Time ≠ b.Time) := by
    intro a b h h1 h2 h3
    exact h h1.symm h2.symm h3.symm
  obtain ⟨hx1, hx2, hx3⟩ := mem_groupRows.mp hx
  obtain ⟨hy1, hy2, hy3⟩ := mem_groupRows.mp hy
  exact hwf.forall hsymm hx1 hy1 hxy (by rw [hx2, hy2]) (by rw [hx3, hy3]) ht

theorem pairwise_headI_le {l : List CleanRow} (hs : l.Pairwise timeLe) (hne : l ≠ []) :
    l.headI ∈ l ∧ ∀ x ∈ l, l.headI.Time ≤ x.Time := by
  cases l with
  | nil => exact absurd rfl hne
  | cons a t =>
    refine ⟨List.mem_cons_self _ _, ?_⟩
    intro x hx
    rcases List.mem_cons.mp hx with rfl | hmem
    · exact le_rfl
    · exact (List.pairwise_cons.mp hs).1 x hmem

theorem pairwise_revHeadI_ge {l : List CleanRow} (hs : l.Pairwise timeLe) (hne : l ≠ []) :
    l.reverse.headI ∈ l ∧ ∀ x ∈ l, x.Time ≤ l.reverse.headI.Time := by
  have hrevne : l.reverse ≠ [] := by simpa using hne
  have hrev : l.reverse.Pairwise (fun a b : CleanRow => timeLe b a) := by
    rw [List.pairwise_reverse]
    exact hs
  cases hcase : l.reverse with
  | nil => exact absurd hcase hrevne
  | cons a t =>
    rw [hcase] at hrev
    have hmem : a ∈ l := by
      have : a ∈ l.reverse := by rw [hcase]; exact List.mem_cons_self _ _
      simpa using this
    refine ⟨by simpa using hmem, ?_⟩
    intro x hx
    have hxrev : x ∈ l.reverse := by simpa using hx
    rw [hcase] at hxrev
    rcases List.mem_cons.mp hxrev with rfl | hmemx
    · exact le_rfl
    · exact (List.pairwise_cons.mp hrev).1 x hmemx

/-- The broadcast opening price of a group equals the start price of the
chronologically first raw row of that group: the head of the group
restricted from the globally time-sorted frame and the head of the
time-sorted group are both time-minimal rows of the group, and distinct
times inside the group make that row unique. -/
theorem openingPrice_eq_chronFirst {clean : List CleanRow}
    (hwf : clean.Pairwise
      (fun a b => a.ISIN = b.ISIN → a.Date = b.Date → a.Time ≠ b.Time))
    {i : String} {d : ℤ} (hne : groupRows clean i d ≠ []) :
    openingPrice clean i d = (chronFirst (groupRows clean i d)).StartPrice ∧
    chronFirst (groupRows clean i d) ∈ groupRows clean i d := by
  have hperm : List.Perm ((sortByTime clean).filter (keyMatches i d))
      (groupRows clean i d) := (sortByTime_perm clean).filter _
  have hfne : (sortByTime clean).filter (keyMatches i d) ≠ [] := by
    intro h
    rw [h] at hperm
    exact hne hperm.symm.eq_nil
  have hfs : ((sortByTime clean).filter (keyMatches i d)).Pairwise timeLe :=
    List.Pairwise.sublist (List.filter_sublist _) (sortByTime_pairwise clean)
  obtain ⟨hmemf, hminf⟩ := pairwise_headI_le hfs hfne
  have hpermg : List.Perm (sortByTime (groupRows clean i d)) (groupRows clean i d) :=
    sortByTime_perm _
  have hgne : sortByTime (groupRows clean i d) ≠ [] := by
    intro h
    rw [h] at hpermg
    exact hne hpermg.symm.eq_nil
  have hgs : (sortByTime (groupRows clean i d)).Pairwise timeLe := sortByTime_pairwise _
  obtain ⟨hmemg, hming⟩ := pairwise_headI_le hgs hgne
  have hfmem' : ((sortByTime clean).filter (keyMatches i d)).headI ∈ groupRows clean i d :=
    hperm.mem_iff.mp hmemf
  have hgmem' : (sortByTime (groupRows clean i d)).headI ∈ groupRows clean i d :=
    hpermg.mem_iff.mp hmemg
  have h1 := hminf _ (hperm.mem_iff.mpr hgmem')
  have h2 := hming _ (hpermg.mem_iff.mpr hfmem')
  have heq : ((sortByTime clean).filter (keyMatches i d)).headI
      = (sortByTime (groupRows clean i d)).headI :=
    group_time_inj hwf hfmem' hgmem' (le_antisymm h1 h2)
  exact ⟨congrArg CleanRow.StartPrice heq, hgmem'⟩

/-- The broadcast closing price of a group equals the start price of the
chronologically last raw row of that group (same argument through the
reversed lists). -/
theorem closingPrice_eq_chronLast {clean : List CleanRow}
    (hwf : clean.Pairwise
      (fun a b => a.ISIN = b.ISIN → a.Date = b.Date → a.Time ≠ b.Time))
    {i : String} {d : ℤ} (hne : groupRows clean i d ≠ []) :
    closingPrice clean i d = (chronLast (groupRows clean i d)).StartPrice ∧
    chronLast (groupRows clean i d) ∈ groupRows clean i d := by
  have hperm : List.Perm ((sortByTime clean).filter (keyMatches i d))
      (groupRows clean i d) := (sortByTime_perm clean).filter _
  have hfne : (sortByTime clean).filter (keyMatches i d) ≠ [] := by
    intro h
    rw [h] at hperm
    exact hne hperm.symm.eq_nil
  have hfs : ((sortByTime clean).filter (keyMatches i d)).Pairwise timeLe :=
    List.Pairwise.sublist (List.filter_sublist _) (sortByTime_pairwise clean)
  obtain ⟨hmemf, hmaxf⟩ := pairwise_revHeadI_ge hfs hfne
  have hpermg : List.Perm (sortByTime (groupRows clean i d)) (groupRows clean i d) :=
    sortByTime_perm _
  have hgne : sortByTime (groupRows clean i d) ≠ [] := by
    intro h
    rw [h] at hpermg
    exact hne hpermg.symm.eq_nil
  have hgs : (sortByTime (groupRows clean i d)).Pairwise timeLe := sortByTime_pairwise _
  obtain ⟨hmemg, hmaxg⟩ := pairwise_revHeadI_ge hgs hgne
  have hfmem' : ((sortByTime clean).filter (keyMatches i d)).reverse.headI
      ∈ groupRows clean i d := hperm.mem_iff.mp hmemf
  have hgmem' : (sortByTime (groupRows clean i d)).reverse.headI
      ∈ groupRows clean i d := hpermg.mem_iff.mp hmemg
  have h1 := hmaxf _ (hperm.mem_iff.mpr hgmem')
  have h2 := hmaxg _ (hpermg.mem_iff.mpr hfmem')
  have heq : ((sortByTime clean).filter (keyMatches i d)).reverse.headI
      = (sortByTime (groupRows clean i d)).reverse.headI :=
    group_time_inj hwf hfmem' hgmem' (le_antisymm h2 h1)
  exact ⟨congrArg CleanRow.StartPrice heq, hgmem'⟩

/-- The aggregated opening/closing prices (the `min` collapse of the
broadcast columns) equal the start prices of the chronologically first and
last rows of the raw group. -/
theorem aggRowFor_op_cl {clean : List CleanRow}
    (hwf : clean.Pairwise
      (fun a b => a.ISIN = b.ISIN → a.Date = b.Date → a.Time ≠ b.Time))
    {k : String × ℤ} (hk : k ∈ aggKeys clean) :
    (aggRowFor clean k).opening_price_eur
      = (chronFirst (groupRows clean k.1 k.2)).StartPrice ∧
    (aggRowFor clean k).closing_price_eur
      = (chronLast (groupRows clean k.1 k.2)).StartPrice := by
  have hne := groupRows_ne_nil hk
  constructor
  · have hconst : ∀ q ∈ (groupRows clean k.1 k.2).map
        (fun r => openingPrice clean r.ISIN r.Date), q = openingPrice clean k.1 k.2 := by
      intro q hq
      obtain ⟨r, hr, rfl⟩ := List.mem_map.mp hq
      obtain ⟨_, h1, h2⟩ := mem_groupRows.mp hr
      rw [h1, h2]
    have hmapne : (groupRows clean k.1 k.2).map
        (fun r => openingPrice clean r.ISIN r.Date) ≠ [] := by
      simpa using hne
    calc (aggRowFor clean k).opening_price_eur
        = minQ ((groupRows clean k.1 k.2).map
            (fun r => openingPrice clean r.ISIN r.Date)) := rfl
      _ = openingPrice clean k.1 k.2 := minQ_const hmapne hconst
      _ = (chronFirst (groupRows clean k.1 k.2)).StartPrice :=
          (openingPrice_eq_chronFirst hwf hne).1
  · have hconst : ∀ q ∈ (groupRows clean k.1 k.2).map
        (fun r => closingPrice clean r.ISIN r.Date), q = closingPrice clean k.1 k.2 := by
      intro q hq
      obtain ⟨r, hr, rfl⟩ := List.mem_map.mp hq
      obtain ⟨_, h1, h2⟩ := mem_groupRows.mp hr
      rw [h1, h2]
    have hmapne : (groupRows clean k.1 k.2).map
        (fun r => closingPrice clean r.ISIN r.Date) ≠ [] := by
      simpa using hne
    calc (aggRowFor clean k).closing_price_eur
        = minQ ((groupRows clean k.1 k.2).map
            (fun r => closingPrice clean r.ISIN r.Date)) := rfl
      _ = closingPrice clean k.1 k.2 := minQ_const hmapne hconst
      _ = (chronLast (groupRows clean k.1 k.2)).StartPrice :=
          (closingPrice_eq_chronLast hwf hne).1

/-- The shifted previous row of the percent-change step: on the aggregated
frame, the last earlier-dated row of the same instrument is the aggregated
row of the immediately preceding date of that instrument. -/
theorem agg_prev_lookup (clean : List CleanRow) (i : String) (d : ℤ) :
    ((aggregateGroups clean).filter
      (fun p => p.ISIN == i && decide (p.Date < d))).getLast?
    = (prevAggDate clean i d).map (fun pd => aggRowFor clean (i, pd)) := by
  unfold aggregateGroups prevAggDate
  rw [filter_map_comm]
  have hpred : (fun x : String × ℤ =>
        ((aggRowFor clean x).ISIN == i && decide ((aggRowFor clean x).Date < d)))
      = (fun x : String × ℤ => x.1 == i && decide (x.2 < d)) := rfl
  rw [hpred, getLast?_map_comm]
  have hall : ∀ k ∈ (aggKeys clean).filter
      (fun x : String × ℤ => x.1 == i && decide (x.2 < d)), k.1 = i ∧ k.2 < d := by
    intro k hk
    have := (List.mem_filter.mp hk).2
    simpa using this
  have hnodup : ((aggKeys clean).filter
      (fun x : String × ℤ => x.1 == i && decide (x.2 < d))).Nodup :=
    (aggKeys_nodup clean).filter _
  have hsorted : ((aggKeys clean).filter
      (fun x : String × ℤ => x.1 == i && decide (x.2 < d))).Pairwise keyLe :=
    List.Pairwise.sublist (List.filter_sublist _) (aggKeys_pairwise clean)
  have hpair : (((aggKeys clean).filter
      (fun x : String × ℤ => x.1 == i && decide (x.2 < d))).map
        (fun x => x.2)).Pairwise (· < ·) := by
    rw [List.pairwise_map]
    refine (hsorted.and hnodup).imp_of_mem ?_
    intro x y hx hy hxy
    obtain ⟨hle, hne'⟩ := hxy
    obtain ⟨hx1, _⟩ := hall _ hx
    obtain ⟨hy1, _⟩ := hall _ hy
    rcases hle with h | ⟨h, h2⟩
    · rw [hx1, hy1] at h
      exact absurd h (lt_irrefl _)
    · rcases lt_or_eq_of_le h2 with h3 | h3
      · exact h3
      · exfalso
        apply hne'
        obtain ⟨x1, x2⟩ := x
        obtain ⟨y1, y2⟩ := y
        simp only [] at hx1 hy1 h3
        rw [hx1, hy1, h3]
  rw [maxZ?_eq_getLast? hpair, getLast?_map_comm]
  cases hlast : ((aggKeys clean).filter
      (fun x : String × ℤ => x.1 == i && decide (x.2 < d))).getLast? with
  | none => rfl
  | some klast =>
    have hmem := mem_of_getLast?' hlast
    have h1 := (hall _ hmem).1
    obtain ⟨k1, k2⟩ := klast
    simp only [] at h1
    show some (aggRowFor clean (k1, k2)) = some (aggRowFor clean (i, (k1, k2).2))
    rw [h1]

/-- A `some` result of `prevAggDate` is an aggregated key of the same
instrument with an earlier date. -/
theorem prevAggDate_mem {clean : List CleanRow} {i : String} {d pd : ℤ}
    (h : prevAggDate clean i d = some pd) :
    (i, pd) ∈ aggKeys clean ∧ pd < d := by
  unfold prevAggDate at h
  have hm := maxZ?_mem h
  obtain ⟨k, hk, hk2⟩ := List.mem_map.mp hm
  have hfil := List.mem_filter.mp hk
  have hkd : k.1 = i ∧ k.2 < d := by simpa using hfil.2
  obtain ⟨k1, k2⟩ := k
  simp only [] at hk2 hkd
  constructor
  · rw [← hkd.1, ← hk2]
    exact hfil.1
  · rw [← hk2]
    exact hkd.2

theorem roundRow_ISIN (r : ReportRow) : (roundRow r).ISIN = r.ISIN := rfl

theorem roundRow_Date (r : ReportRow) : (roundRow r).Date = r.Date := rfl

theorem roundRow_op (r : ReportRow) :
    (roundRow r).opening_price_eur = round2 r.opening_price_eur := rfl

theorem roundRow_cl (r : ReportRow) :
    (roundRow r).closing_price_eur = round2 r.closing_price_eur := rfl

theorem roundRow_mn (r : ReportRow) :
    (roundRow r).minimum_price_eur = round2 r.minimum_price_eur := rfl

theorem roundRow_mx (r : ReportRow) :
    (roundRow r).maximum_price_eur = round2 r.maximum_price_eur := rfl

theorem roundRow_vol (r : ReportRow) :
    (roundRow r).daily_traded_volume = round2 r.daily_traded_volume := rfl

theorem roundRow_chg (r : ReportRow) :
    (roundRow r).change_prev_closing = r.change_prev_closing.map round2 := rfl

theorem changeRowFor_ISIN (agg : List AggRow) (a : AggRow) :
    (changeRowFor agg a).ISIN = a.ISIN := rfl

theorem changeRowFor_Date (agg : List AggRow) (a : AggRow) :
    (changeRowFor agg a).Date = a.Date := rfl

theorem changeRowFor_op (agg : List AggRow) (a : AggRow) :
    (changeRowFor agg a).opening_price_eur = a.opening_price_eur := rfl

theorem changeRowFor_cl (agg : List AggRow) (a : AggRow) :
    (changeRowFor agg a).closing_price_eur = a.closing_price_eur := rfl

theorem changeRowFor_mn (agg : List AggRow) (a : AggRow) :
    (changeRowFor agg a).minimum_price_eur = a.minimum_price_eur := rfl

theorem changeRowFor_mx (agg : List AggRow) (a : AggRow) :
    (changeRowFor agg a).maximum_price_eur = a.maximum_price_eur := rfl

theorem changeRowFor_vol (agg : List AggRow) (a : AggRow) :
    (changeRowFor agg a).daily_traded_volume = a.daily_traded_volume := rfl

theorem changeRowFor_chg (agg : List AggRow) (a : AggRow) :
    (changeRowFor agg a).change_prev_closing
      = ((agg.filter (fun p => p.ISIN == a.ISIN && decide (p.Date < a.Date))).getLast?).map
          (fun p => (a.opening_price_eur - p.opening_price_eur)
            / p.opening_price_eur * 100) := rfl

theorem aggRowFor_mn (clean : List CleanRow) (k : String × ℤ) :
    (aggRowFor clean k).minimum_price_eur
      = minQ ((groupRows clean k.1 k.2).map (fun r => r.MinPrice)) := rfl

theorem aggRowFor_mx (clean : List CleanRow) (k : String × ℤ) :
    (aggRowFor clean k).maximum_price_eur
      = maxQ ((groupRows clean k.1 k.2).map (fun r => r.MaxPrice)) := rfl

theorem aggRowFor_vol (clean : List CleanRow) (k : String × ℤ) :
    (aggRowFor clean k).daily_traded_volume
      = ((groupRows clean k.1 k.2).map (fun r => r.TradedVolume)).sum := rfl

/-- C1: every row emitted by `transform_report1` on a non-empty well-formed
table carries, for its `(instrument, date)` group of surviving raw rows:
the opening price of the chronologically first row, the closing price of
the chronologically last row, the group minimum/maximum price, the summed
volume, and the percent change computed from the opening price of the
immediately preceding aggregated date of that instrument (`none` when no
earlier date exists), everything rounded to 2 decimals. -/
theorem transform_report1_row_values (extract_date : ℤ) (df : List SrcRow)
    (hwf : WellFormed df) (hne : df ≠ []) (r : ReportRow)
    (hr : r ∈ transform_report1 extract_date df) :
    groupRows (dropna df) r.ISIN r.Date ≠ [] ∧
    r.opening_price_eur
      = round2 (chronFirst (groupRows (dropna df) r.ISIN r.Date)).StartPrice ∧
    r.closing_price_eur
      = round2 (chronLast (groupRows (dropna df) r.ISIN r.Date)).StartPrice ∧
    r.minimum_price_eur
      = round2 (minQ ((groupRows (dropna df) r.ISIN r.Date).map (fun x => x.MinPrice))) ∧
    r.maximum_price_eur
      = round2 (maxQ ((groupRows (dropna df) r.ISIN r.Date).map (fun x => x.MaxPrice))) ∧
    r.daily_traded_volume
      = round2 (((groupRows (dropna df) r.ISIN r.Date).map (fun x => x.TradedVolume)).sum) ∧
    (match prevAggDate (dropna df) r.ISIN r.Date with
     | none => r.change_prev_closing = none
     | some pd =>
        r.change_prev_closing = some (round2
          (((chronFirst (groupRows (dropna df) r.ISIN r.Date)).StartPrice
              - (chronFirst (groupRows (dropna df) r.ISIN pd)).StartPrice)
            / (chronFirst (groupRows (dropna df) r.ISIN pd)).StartPrice * 100))) := by
  obtain ⟨hwf1, _⟩ := hwf
  have hemp : df.isEmpty = false := by
    cases df with
    | nil => exact absurd rfl hne
    | cons a t => rfl
  simp only [transform_report1, hemp, Bool.false_eq_true, if_false] at hr
  have hr1 := (List.mem_filter.mp hr).1
  obtain ⟨r0, hr0, hr0eq⟩ := List.mem_map.mp hr1
  unfold withChange at hr0
  obtain ⟨a, ha, haeq⟩ := List.mem_map.mp hr0
  unfold aggregateGroups at ha
  obtain ⟨k, hk, hkeq⟩ := List.mem_map.mp ha
  subst hkeq
  subst haeq
  subst hr0eq
  simp only [roundRow_ISIN, roundRow_Date, changeRowFor_ISIN, changeRowFor_Date,
    aggRowFor_ISIN, aggRowFor_Date]
  refine ⟨groupRows_ne_nil hk, ?_, ?_, ?_, ?_, ?_, ?_⟩
  · rw [roundRow_op, changeRowFor_op, (aggRowFor_op_cl hwf1 hk).1]
  · rw [roundRow_cl, changeRowFor_cl, (aggRowFor_op_cl hwf1 hk).2]
  · rw [roundRow_mn, changeRowFor_mn, aggRowFor_mn]
  · rw [roundRow_mx, changeRowFor_mx, aggRowFor_mx]
  · rw [roundRow_vol, changeRowFor_vol, aggRowFor_vol]
  · rw [roundRow_chg, changeRowFor_chg]
    simp only [aggRowFor_ISIN, aggRowFor_Date]
    rw [agg_prev_lookup (dropna df) k.1 k.2]
    cases hprev : prevAggDate (dropna df) k.1 k.2 with
    | none => rfl
    | some pd =>
      obtain ⟨hpk, _⟩ := prevAggDate_mem hprev
      have hop := (aggRowFor_op_cl hwf1 hk).1
      have hopP : (aggRowFor (dropna df) (k.1, pd)).opening_price_eur
          = (chronFirst (groupRows (dropna df) k.1 pd)).StartPrice :=
        (aggRowFor_op_cl hwf1 hpk).1
      show some (round2 (((aggRowFor (dropna df) k).opening_price_eur
          - (aggRowFor (dropna df) (k.1, pd)).opening_price_eur)
          / (aggRowFor (dropna df) (k.1, pd)).opening_price_eur * 100))
        = some (round2 (((chronFirst (groupRows (dropna df) k.1 k.2)).StartPrice
            - (chronFirst (groupRows (dropna df) k.1 pd)).StartPrice)
          / (chronFirst (groupRows (dropna df) k.1 pd)).StartPrice * 100))
      rw [hop, hopP]

/-- C7: the report never contains a row dated before the cutoff
(`extract_date`): the final step keeps exactly the rows with
`Date >= extract_date`, re-indexed contiguously (in this list model the
row index is the list position, so the filtered list itself carries the
fresh contiguous index). -/
theorem transform_report1_cutoff (extract_date : ℤ) (df : List SrcRow) (hne : df ≠ []) :
    (∀ r ∈ transform_report1 extract_date df, extract_date ≤ r.Date) ∧
    transform_report1 extract_date df
      = ((withChange (aggregateGroups (dropna df))).map roundRow).filter
          (fun r => decide (extract_date ≤ r.Date)) := by
  have hemp : df.isEmpty = false := by
    cases df with
    | nil => exact absurd rfl hne
    | cons a t => rfl
  have hout : transform_report1 extract_date df
      = ((withChange (aggregateGroups (dropna df))).map roundRow).filter
          (fun r => decide (extract_date ≤ r.Date)) := by
    simp only [transform_report1, hemp, Bool.false_eq_true, if_false]
  refine ⟨?_, hout⟩
  intro r hr
  rw [hout] at hr
  have := (List.mem_filter.mp hr).2
  simpa using this

/-- Witness for C1 at `exSrcRows` and the `(X, 2)` report row. -/
theorem transform_report1_row_values_witness :
    WellFormed exSrcRows ∧ exSrcRows ≠ [] ∧
    exReportRow ∈ transform_report1 1 exSrcRows ∧
    (groupRows (dropna exSrcRows) exReportRow.ISIN exReportRow.Date ≠ [] ∧
     exReportRow.opening_price_eur = round2 (chronFirst
       (groupRows (dropna exSrcRows) exReportRow.ISIN exReportRow.Date)).StartPrice ∧
     exReportRow.closing_price_eur = round2 (chronLast
       (groupRows (dropna exSrcRows) exReportRow.ISIN exReportRow.Date)).StartPrice ∧
     exReportRow.minimum_price_eur = round2 (minQ ((groupRows (dropna exSrcRows)
       exReportRow.ISIN exReportRow.Date).map (fun x => x.MinPrice))) ∧
     exReportRow.maximum_price_eur = round2 (maxQ ((groupRows (dropna exSrcRows)
       exReportRow.ISIN exReportRow.Date).map (fun x => x.MaxPrice))) ∧
     exReportRow.daily_traded_volume = round2 (((groupRows (dropna exSrcRows)
       exReportRow.ISIN exReportRow.Date).map (fun x => x.TradedVolume)).sum) ∧
     (match prevAggDate (dropna exSrcRows) exReportRow.ISIN exReportRow.Date with
      | none => exReportRow.change_prev_closing = none
      | some pd =>
         exReportRow.change_prev_closing = some (round2
           (((chronFirst (groupRows (dropna exSrcRows)
                exReportRow.ISIN exReportRow.Date)).StartPrice
               - (chronFirst (groupRows (dropna exSrcRows)
                   exReportRow.ISIN pd)).StartPrice)
             / (chronFirst (groupRows (dropna exSrcRows)
                 exReportRow.ISIN pd)).StartPrice * 100)))) :=
  ⟨⟨by with_unfolding_all decide, by with_unfolding_all decide⟩, by decide,
    by with_unfolding_all decide,
    transform_report1_row_values 1 exSrcRows
      ⟨by with_unfolding_all decide, by with_unfolding_all decide⟩ (by decide)
      exReportRow (by with_unfolding_all decide)⟩

/-- Witness for C7 at `exSrcRows` with cutoff 2. -/
theorem transform_report1_cutoff_witness :
    exSrcRows ≠ [] ∧
    ((∀ r ∈ transform_report1 2 exSrcRows, 2 ≤ r.Date) ∧
     transform_report1 2 exSrcRows
       = ((withChange (aggregateGroups (dropna exSrcRows))).map roundRow).filter
           (fun r => decide (2 ≤ r.Date))) :=
  ⟨by decide, transform_report1_cutoff 2 exSrcRows (by decide)⟩
